import Mathlib

/-!
Verification of `src/probe-rs/src/debug/mod.rs` (module `debug` of probe-rs).

This file gives a shallow embedding of the data model and operations of the
module, translated from the Rust source, and proves the specified properties
about them. Machine integers are modelled as `Nat`/`Int` with explicit
`% 2 ^ 32` truncation where the Rust code truncates; fallible code returns
`Option`/`Except`; the panic of an `unwrap`/`unimplemented!` is modelled as
the `none` outcome of an `Option`-valued function.
-/

set_option autoImplicit false

namespace ProbeRs

/-- Object reference as defined in the DAP standard
(`enum ObjectRef` in `debug/mod.rs`).
The Rust payload is a `NonZeroU32`; here the payload is a `Nat`, and the
invariant `0 < v ∧ v < 2 ^ 32` is carried as a hypothesis where needed. -/
inductive ObjectRef where
  /-- Valid object reference (> 0) -/
  | valid (v : Nat)
  /-- Invalid object reference (<= 0) -/
  | invalid
  deriving DecidableEq, Repr

/-- `impl From<ObjectRef> for i64`: a valid handle maps to its numeric value
(`v.get() as i64`, exact since `v < 2 ^ 32`), `Invalid` maps to `0`. -/
def ObjectRef.toInt64 : ObjectRef → Int
  | .valid v => (v : Int)
  | .invalid => 0

/-- `impl From<i64> for ObjectRef`: a negative value is `Invalid`; otherwise
the value is cast to `u32` (truncation to the low 32 bits, `value as u32`,
i.e. `toNat % 2 ^ 32` for a non-negative value) and `NonZeroU32::try_from`
yields a valid handle exactly when the truncated value is non-zero. -/
def ObjectRef.fromInt64 (value : Int) : ObjectRef :=
  if value < 0 then
    .invalid
  else
    let u := value.toNat % 2 ^ 32
    if u = 0 then .invalid else .valid u

/-- `impl Ord for ObjectRef`: comparison delegates to the `i64` transport
values (`i64::from(*self).cmp(&i64::from(*other))`). -/
def ObjectRef.cmp (a b : ObjectRef) : Ordering :=
  compare a.toInt64 b.toInt64

/-- `get_object_reference`: `CACHE_KEY.fetch_add(1, SeqCst)` returns the old
counter value and stores the wrapped successor; `NonZeroU32::new(key).unwrap()`
panics exactly when the fetched key is `0`.  The atomic `u32` counter is
passed explicitly as a `Nat < 2 ^ 32`; the panic is the `none` outcome. -/
def get_object_reference (cacheKey : Nat) : Option ObjectRef × Nat :=
  ((if cacheKey = 0 then none else some (ObjectRef.valid cacheKey)),
    (cacheKey + 1) % 2 ^ 32)

/-- `n` sequential calls to `get_object_reference` starting from counter value
`c`: returns the list of issued handles and the final counter value, or `none`
if some call panicked. -/
def allocN (c : Nat) : Nat → Option (List ObjectRef × Nat)
  | 0 => some ([], c)
  | n + 1 =>
    match get_object_reference c with
    | (some r, c') => (allocN c' n).map (fun p => (r :: p.1, p.2))
    | (none, _) => none

/-- `gimli::read::Error`: the error type of the external parsing library,
opaque to this module. -/
inductive GimliError where
  | err
  deriving DecidableEq, Repr

/-- `enum DebugError` in `debug/mod.rs`.  Foreign error payloads
(`io::Error`, `object::read::Error`, `anyhow::Error`, ...) are modelled as
their message strings; `Utf8Error` and the numeric conversion errors carry no
data the claims need. -/
inductive DebugError where
  /-- `Io`: an IO error occurred when accessing debug data. -/
  | ioError (msg : String)
  /-- `DebugData`: an error occurred while accessing debug data. -/
  | debugData (msg : String)
  /-- `Parse`: something failed while parsing debug data. -/
  | parse (e : GimliError)
  /-- `NonUtf8`: non-UTF8 data was found in the debug data. -/
  | nonUtf8
  /-- `Probe`: a probe-rs error occurred. -/
  | probe (msg : String)
  /-- `CharConversion` -/
  | charConversion
  /-- `IntConversion` -/
  | intConversion
  /-- `NoValidHaltLocation` -/
  | noValidHaltLocation (message : String) (pcAtError : Nat)
  /-- `UnwindIncompleteResults` -/
  | unwindIncompleteResults (message : String)
  /-- `Other`: some other error (an `anyhow::Error`), modelled by its message. -/
  | other (msg : String)
  deriving DecidableEq, Repr

/-- `enum ColumnType` in `debug/mod.rs`. -/
inductive ColumnType where
  /-- The statement begins at the start of the new line. -/
  | leftEdge
  /-- A column number, whose range begins at 1. -/
  | column (c : Nat)
  deriving DecidableEq, Repr

/-- `struct SourceLocation` in `debug/mod.rs`.  `TypedPathBuf` is modelled as
a `String`. -/
structure SourceLocation where
  line : Option Nat := none
  column : Option ColumnType := none
  file : Option String := none
  directory : Option String := none
  lowPc : Option Nat := none
  highPc : Option Nat := none
  deriving DecidableEq, Repr

/-- `TypedPathBuf::join`: path join, modelled as concatenation with a
separator. -/
def pathJoin (dir file : String) : String := dir ++ "/" ++ file

/-- `SourceLocation::combined_typed_path`:
`self.directory.as_ref().and_then(|dir| self.file.as_ref().map(|file| dir.join(file)))`. -/
def SourceLocation.combined_typed_path (loc : SourceLocation) : Option String :=
  loc.directory.bind fun dir => loc.file.map fun file => pathJoin dir file

/-- Debug formatting of an optional string, standing in for the `{:?}`
of the `directory`/`file` fields in the error message of `combined_path`. -/
def optionDebugStr : Option String → String
  | some s => "Some(" ++ s ++ ")"
  | none => "None"

/-- The error message built by `SourceLocation::combined_path` when no
existing source file can be resolved. -/
def combinedPathErrMsg (loc : SourceLocation) : String :=
  "Unable to find source file for directory " ++ optionDebugStr loc.directory
    ++ " and file " ++ optionDebugStr loc.file

/-- `SourceLocation::combined_path`.  The two host-environment effects are
passed as explicit functions: `tryIntoNative` models
`PathBuf::try_from(p).ok()` (conversion of a typed path to a native path,
which can fail), and `pathExists` models `Path::exists` on the host
filesystem.  Returns `Ok(native_path)` only when the combined typed path is
present, converts, and exists; every other case falls through to the single
`Err(DebugError::Other(..))`. -/
def SourceLocation.combined_path (tryIntoNative : String → Option String)
    (pathExists : String → Bool) (loc : SourceLocation) :
    Except DebugError String :=
  match (loc.combined_typed_path).bind tryIntoNative with
  | some nativePath =>
    if pathExists nativePath then Except.ok nativePath
    else Except.error (DebugError.other (combinedPathErrMsg loc))
  | none => Except.error (DebugError.other (combinedPathErrMsg loc))

/-- `gimli::AttributeValue`, restricted to the constructors this module
inspects (`Udata`, `FileIndex`, `DebugStrRef`, `String`); every other
constructor is collapsed into `other`. -/
inductive AttributeValue where
  /-- `AttributeValue::Udata` -/
  | udata (value : Nat)
  /-- `AttributeValue::FileIndex` -/
  | fileIndex (index : Nat)
  /-- `AttributeValue::DebugStrRef` -/
  | debugStrRef (nameRef : Nat)
  /-- `AttributeValue::String`, carrying raw bytes -/
  | string (bytes : List Nat)
  /-- any other `gimli::AttributeValue` constructor -/
  | other
  deriving DecidableEq, Repr

/-- The line program of a unit (`gimli::IncompleteLineProgram`), modelled by
its header's file lookup `header.file(index)`; file entries are opaque and
modelled as `Nat` identifiers. -/
structure LineProgram where
  file : Nat → Option Nat

/-- `extract_file` in `debug/mod.rs`.  The `DebugInfo`/`Unit` context is
abstracted: `find_file_and_directory` models
`debug_info.find_file_and_directory(unit, header, file_entry)`, returning
`(file, path)` pairs, and `line_program` models `unit.line_program`.
Only a `FileIndex` attribute with all lookups succeeding yields `Some`;
every malformed case logs a warning and yields `None`. -/
def extract_file (find_file_and_directory : Nat → Option (Option String × Option String))
    (line_program : Option LineProgram)
    (attribute_value : AttributeValue) : Option (String × String) :=
  match attribute_value with
  | .fileIndex index =>
    line_program.bind fun ilnp =>
      match ilnp.file index with
      | some file_entry =>
        match (find_file_and_directory file_entry).map
            (fun fp => (fp.2, fp.1)) with
        | some (some path, some file) => some (path, file)
        | _ => none
      | none => none
  | _ => none

/-- `extract_byte_size` in `debug/mod.rs`.  The input is the result of
`node_die.attr(gimli::DW_AT_byte_size)`, of type
`Result<Option<Attribute>, Error>`; an attribute is modelled by its value.
Only `Ok(Some(attr))` with a `Udata` value yields `Some`; a non-`Udata`
value or an `Err` logs a warning and yields `None`. -/
def extract_byte_size (attrResult : Except GimliError (Option AttributeValue)) :
    Option Nat :=
  match attrResult with
  | .ok (some byte_size_attr) =>
    match byte_size_attr with
    | .udata byte_size => some byte_size
    | _ => none
  | .ok none => none
  | .error _ => none

/-- `extract_line` in `debug/mod.rs`: `Udata` yields `Some(line)`, everything
else yields `None`. -/
def extract_line (attribute_value : AttributeValue) : Option Nat :=
  match attribute_value with
  | .udata line => some line
  | _ => none

/-- The Unicode replacement character U+FFFD. -/
def replacementChar : Char := Char.ofNat 0xFFFD

/-- Validity of the second byte of a multi-byte UTF-8 sequence, which depends
on the lead byte (this encodes the overlong/surrogate/out-of-range
restrictions of `core::str::run_utf8_validation`). -/
def utf8SecondByteOk (b b2 : Nat) : Bool :=
  if b = 0xE0 then 0xA0 ≤ b2 && b2 ≤ 0xBF
  else if b = 0xED then 0x80 ≤ b2 && b2 ≤ 0x9F
  else if b = 0xF0 then 0x90 ≤ b2 && b2 ≤ 0xBF
  else if b = 0xF4 then 0x80 ≤ b2 && b2 ≤ 0x8F
  else 0x80 ≤ b2 && b2 ≤ 0xBF

/-- A plain continuation byte (`0x80..=0xBF`). -/
def utf8ContByte (b : Nat) : Bool := 0x80 ≤ b && b ≤ 0xBF

/-- One step of UTF-8 decoding with `String::from_utf8_lossy` error handling:
given the lead byte `b` and the remaining bytes, returns the decoded
character (or U+FFFD) and the total number of bytes consumed (the length of
the maximal subpart of an ill-formed sequence, per the Rust standard
library's substitution rule). -/
def utf8Step (b : Nat) (rest : List Nat) : Char × Nat :=
  if b < 0x80 then
    (Char.ofNat b, 1)
  else if 0xC2 ≤ b && b ≤ 0xDF then
    match rest.head? with
    | some b2 =>
      if utf8ContByte b2 then
        (Char.ofNat (((b - 0xC0) <<< 6) + (b2 - 0x80)), 2)
      else (replacementChar, 1)
    | none => (replacementChar, 1)
  else if 0xE0 ≤ b && b ≤ 0xEF then
    match rest.head? with
    | some b2 =>
      if utf8SecondByteOk b b2 then
        match rest.get? 1 with
        | some b3 =>
          if utf8ContByte b3 then
            (Char.ofNat (((b - 0xE0) <<< 12) + ((b2 - 0x80) <<< 6) + (b3 - 0x80)), 3)
          else (replacementChar, 2)
        | none => (replacementChar, 2)
      else (replacementChar, 1)
    | none => (replacementChar, 1)
  else if 0xF0 ≤ b && b ≤ 0xF4 then
    match rest.head? with
    | some b2 =>
      if utf8SecondByteOk b b2 then
        match rest.get? 1 with
        | some b3 =>
          if utf8ContByte b3 then
            match rest.get? 2 with
            | some b4 =>
              if utf8ContByte b4 then
                (Char.ofNat (((b - 0xF0) <<< 18) + ((b2 - 0x80) <<< 12)
                  + ((b3 - 0x80) <<< 6) + (b4 - 0x80)), 4)
              else (replacementChar, 3)
            | none => (replacementChar, 3)
          else (replacementChar, 2)
        | none => (replacementChar, 2)
      else (replacementChar, 1)
    | none => (replacementChar, 1)
  else
    -- a lone continuation byte, an overlong lead `0xC0`/`0xC1`, or `0xF5..=0xFF`
    (replacementChar, 1)

/-- Iterated lossy decoding; `fuel` bounds the recursion and is instantiated
with the length of the byte list (each step consumes at least one byte, so
this fuel is always sufficient). -/
def utf8LossyGo : Nat → List Nat → List Char
  | 0, _ => []
  | _ + 1, [] => []
  | fuel + 1, b :: rest =>
    let s := utf8Step b rest
    s.1 :: utf8LossyGo fuel (rest.drop (s.2 - 1))

/-- `String::from_utf8_lossy` (as a list of characters): decodes UTF-8,
replacing each maximal ill-formed subsequence with U+FFFD. -/
def utf8Lossy (bytes : List Nat) : List Char :=
  utf8LossyGo bytes.length bytes

/-- The debug formatting (`{:?}`) of an attribute value, used by the
fall-through arm of `extract_name`. -/
def AttributeValue.debugStr : AttributeValue → String
  | .udata n => "Udata(" ++ toString n ++ ")"
  | .fileIndex i => "FileIndex(" ++ toString i ++ ")"
  | .debugStrRef r => "DebugStrRef(" ++ toString r ++ ")"
  | .string _ => "String(..)"
  | .other => "Other"

/-- `extract_name` in `debug/mod.rs`.  `dwarfString` models
`debug_info.dwarf.string(name_ref)` (a fallible lookup of raw bytes in
`.debug_str`).  Note the function is `String`-valued: a failing lookup
yields the placeholder `"Invalid DW_AT_name value"`, raw bytes are converted
with `String::from_utf8_lossy`, and any other attribute form yields an
`"Unimplemented: ..."` placeholder — no error is ever returned. -/
def extract_name (dwarfString : Nat → Except GimliError (List Nat))
    (attribute_value : AttributeValue) : String :=
  match attribute_value with
  | .debugStrRef nameRef =>
    match dwarfString nameRef with
    | .ok nameRaw => String.mk (utf8Lossy nameRaw)
    | .error _ => "Invalid DW_AT_name value"
  | .string name => String.mk (utf8Lossy name)
  | otherValue => "Unimplemented: Evaluate name from " ++ otherValue.debugStr

/-- `gimli::Value`, restricted to the constructors built by the
`RequiresMemory` arm of `_print_all_attributes`. -/
inductive GimliValue where
  /-- `Value::U8` -/
  | u8 (n : Nat)
  /-- `Value::U16` -/
  | u16 (n : Nat)
  /-- `Value::U32` -/
  | u32 (n : Nat)
  deriving DecidableEq, Repr

/-- The `RequiresMemory { address, size, .. }` arm of the evaluation loop in
`_print_all_attributes`: `buff` holds the `size` bytes read from the target
(each `< 256`), and the result is the value passed to
`evaluation.resume_with_memory`.  Sizes 1, 2 and 4 assemble a `U8`/`U16`/`U32`
(note: `u16::from(buff[0]) << 8 | u16::from(buff[1])` etc., so the FIRST byte
is the MOST significant); any other size hits `unimplemented!()`, modelled as
`none`. -/
def resume_with_memory_value (size : Nat) (buff : List Nat) : Option GimliValue :=
  if size = 1 then
    (buff.get? 0).map GimliValue.u8
  else if size = 2 then
    match buff.get? 0, buff.get? 1 with
    | some b0, some b1 => some (.u16 ((b0 <<< 8) ||| b1))
    | _, _ => none
  else if size = 4 then
    match buff.get? 0, buff.get? 1, buff.get? 2, buff.get? 3 with
    | some b0, some b1, some b2, some b3 =>
      some (.u32 ((b0 <<< 24) ||| ((b1 <<< 16) ||| ((b2 <<< 8) ||| b3))))
    | _, _, _, _ => none
  else none

/-- Byte order. -/
inductive Endian where
  | little
  | big
  deriving DecidableEq, Repr

/-- The endianness declared by the module's reader type alias
`pub type EndianReader = gimli::EndianReader<gimli::LittleEndian, ..>`. -/
def endianReaderEndian : Endian := .little

/-- Follows the spec's words (little-endian assembly): the value of a byte
sequence when the first byte read is the least significant. -/
def specLittleEndianValue : List Nat → Nat
  | [] => 0
  | b :: rest => b + 256 * specLittleEndianValue rest

/-- A concrete `SourceLocation` fixture with both `directory` and `file`
present, used to instantiate the `combined_path` theorem. -/
def sampleLoc : SourceLocation :=
  { file := some "main.rs", directory := some "/src" }

end ProbeRs

namespace ProbeRs

theorem allocN_succ (c n : Nat) :
    allocN c (n + 1) =
      if c = 0 then none
      else (allocN ((c + 1) % 2 ^ 32) n).map
        (fun p => (ObjectRef.valid c :: p.1, p.2)) := by
  by_cases hc : c = 0 <;> simp [allocN, get_object_reference, hc]

theorem allocN_zero_succ (n : Nat) : allocN 0 (n + 1) = none := by
  rw [allocN_succ, if_pos rfl]

theorem allocN_eq (n : Nat) : ∀ c : Nat, 0 < c → c < 2 ^ 32 → c + n ≤ 2 ^ 32 →
    allocN c n = some ((List.range' c n).map ObjectRef.valid, (c + n) % 2 ^ 32) := by
  induction n with
  | zero =>
    intro c hc hlt _
    simp [allocN, List.range']
    omega
  | succ n ih =>
    intro c hc hlt hle
    rw [allocN_succ, if_neg (by omega)]
    by_cases hwrap : c + 1 < 2 ^ 32
    · have hmod : (c + 1) % 2 ^ 32 = c + 1 := by omega
      rw [hmod, ih (c + 1) (by omega) hwrap (by omega)]
      have hcomm : c + 1 + n = c + (n + 1) := by omega
      simp [List.range', hcomm]
    · have hn : n = 0 := by omega
      subst hn
      have hmod : (c + 1) % 2 ^ 32 = 0 := by omega
      rw [hmod]
      have hfin : (c + 1) % 2 ^ 32 = 0 := hmod
      simp [allocN, List.range', hfin]

theorem allocN_success_shape (n : Nat) : ∀ c l cf, 0 < c → c < 2 ^ 32 →
    allocN c n = some (l, cf) →
    c + n ≤ 2 ^ 32 ∧ l = (List.range' c n).map ObjectRef.valid := by
  induction n with
  | zero =>
    intro c l cf hc hlt h
    simp [allocN] at h
    exact ⟨by omega, by simp [List.range', h.1.symm]⟩
  | succ n ih =>
    intro c l cf hc hlt h
    rw [allocN_succ, if_neg (by omega)] at h
    by_cases hwrap : c + 1 < 2 ^ 32
    · have hmod : (c + 1) % 2 ^ 32 = c + 1 := by omega
      rw [hmod] at h
      cases hrec : allocN (c + 1) n with
      | none => rw [hrec] at h; simp at h
      | some p =>
        rw [hrec] at h
        simp at h
        obtain ⟨hle, hshape⟩ := ih (c + 1) p.1 p.2 (by omega) hwrap (by rw [hrec])
        refine ⟨by omega, ?_⟩
        rw [← h.1, hshape]
        simp [List.range']
    · have hmod : (c + 1) % 2 ^ 32 = 0 := by omega
      rw [hmod] at h
      cases n with
      | zero =>
        simp [allocN] at h
        exact ⟨by omega, by simp [List.range', ← h.1]⟩
      | succ m =>
        rw [allocN_zero_succ] at h
        simp at h

theorem allocN_add (m : Nat) : ∀ n c : Nat,
    allocN c (n + m) = (allocN c n).bind
      (fun p => (allocN p.2 m).map (fun q => (p.1 ++ q.1, q.2))) := by
  intro n
  induction n with
  | zero =>
    intro c
    cases h : allocN c m with
    | none => simp [allocN, Nat.zero_add, h]
    | some q => simp [allocN, Nat.zero_add, h]
  | succ n ih =>
    intro c
    have h1 : n + 1 + m = (n + m) + 1 := by omega
    rw [h1, allocN_succ, allocN_succ]
    by_cases hc : c = 0
    · simp [hc]
    · simp only [if_neg hc, ih]
      cases allocN ((c + 1) % 2 ^ 32) n with
      | none => rfl
      | some p =>
        simp only [Option.map_some', Option.bind_some, Option.some_bind]
        cases allocN p.2 m with
        | none => rfl
        | some q => simp

theorem combined_typed_path_isSome (loc : SourceLocation) (tp : String)
    (h : loc.combined_typed_path = some tp) :
    loc.directory.isSome ∧ loc.file.isSome := by
  cases hd : loc.directory <;> cases hf : loc.file <;>
    simp [SourceLocation.combined_typed_path, hd, hf] at h ⊢

theorem utf8LossyGo_ascii : ∀ (fuel : Nat) (bytes : List Nat),
    bytes.length ≤ fuel → (∀ b ∈ bytes, b < 0x80) →
    utf8LossyGo fuel bytes = bytes.map Char.ofNat := by
  intro fuel
  induction fuel with
  | zero =>
    intro bytes h1 _
    cases bytes with
    | nil => rfl
    | cons b rest => simp at h1
  | succ f ih =>
    intro bytes h1 h2
    cases bytes with
    | nil => rfl
    | cons b rest =>
      have hb : b < 0x80 := h2 b (by simp)
      have hstep : utf8Step b rest = (Char.ofNat b, 1) := by
        simp [utf8Step, hb]
      simp only [utf8LossyGo, hstep, List.map_cons]
      rw [show (1 : Nat) - 1 = 0 from rfl, List.drop_zero]
      rw [ih rest (by simpa using Nat.le_of_succ_le_succ h1)
        (fun x hx => h2 x (List.mem_cons_of_mem b hx))]

theorem utf8Lossy_ascii (bytes : List Nat) (h : ∀ b ∈ bytes, b < 0x80) :
    utf8Lossy bytes = bytes.map Char.ofNat :=
  utf8LossyGo_ascii bytes.length bytes le_rfl h

/-- Claim C1 (counterexample): decoding the transport integer `2 ^ 32 + 1`
(a value greater than `u32::MAX`) does NOT yield `Invalid`: the `as u32`
cast truncates the value to its low 32 bits, and the result is the handle
`Valid(1)` derived from the truncated value. -/
theorem from_i64_truncation_counterexample :
    ObjectRef.fromInt64 (2 ^ 32 + 1) = .valid 1 ∧
    ObjectRef.valid 1 ≠ .invalid := by decide

/-- Claim C1 (amended): decoding an `ObjectRef` from its signed 64-bit
transport integer satisfies: every value ≤ 0 decodes as `Invalid`; every
positive value that fits the unsigned 32-bit range decodes to the
corresponding valid handle; and every positive value is first truncated to
its low 32 bits (`value as u32`), decoding to the valid handle of the
truncated value when that is non-zero and to `Invalid` when it is zero. -/
theorem from_i64_decode (value : Int) :
    (value ≤ 0 → ObjectRef.fromInt64 value = .invalid) ∧
    (0 < value → value < 2 ^ 32 → ObjectRef.fromInt64 value = .valid value.toNat) ∧
    (0 < value → ObjectRef.fromInt64 value =
      if value.toNat % 2 ^ 32 = 0 then .invalid
      else .valid (value.toNat % 2 ^ 32)) := by
  refine ⟨?_, ?_, ?_⟩
  · intro h
    simp only [ObjectRef.fromInt64]
    split_ifs with h1 h2
    · rfl
    · rfl
    · exfalso; omega
  · intro h1 h2
    simp only [ObjectRef.fromInt64]
    split_ifs with ha hb
    · exfalso; omega
    · exfalso; omega
    · congr 1; omega
  · intro h1
    simp only [ObjectRef.fromInt64]
    rw [if_neg (by omega)]

/-- Witness for `from_i64_decode` at the concrete inputs `5` and
`2 ^ 32 + 2`. -/
theorem from_i64_decode_witness :
    ObjectRef.fromInt64 5 = .valid 5 ∧
    ObjectRef.fromInt64 (2 ^ 32 + 2) =
      (if ((2 ^ 32 + 2 : Int)).toNat % 2 ^ 32 = 0 then ObjectRef.invalid
       else .valid (((2 ^ 32 + 2 : Int)).toNat % 2 ^ 32)) := by
  constructor
  · have h := (from_i64_decode 5).2.1 (by decide) (by decide)
    simpa using h
  · exact (from_i64_decode (2 ^ 32 + 2)).2.2 (by decide)

/-- Claim C2: for every valid handle `ObjectRef::Valid(v)` (a non-zero
32-bit value), converting to the `i64` transport integer and decoding back
yields the identical handle. -/
theorem object_ref_roundtrip (v : Nat) (h1 : 0 < v) (h2 : v < 2 ^ 32) :
    ObjectRef.fromInt64 (ObjectRef.toInt64 (.valid v)) = .valid v := by
  simp only [ObjectRef.toInt64, ObjectRef.fromInt64]
  rw [if_neg (by omega)]
  have htn : ((v : Int)).toNat = v := by omega
  rw [htn, Nat.mod_eq_of_lt h2, if_neg (by omega)]

/-- Witness for `object_ref_roundtrip` at the concrete handle `Valid(7)`. -/
theorem object_ref_roundtrip_witness :
    ObjectRef.fromInt64 (ObjectRef.toInt64 (.valid 7)) = .valid 7 :=
  object_ref_roundtrip 7 (by decide) (by decide)

/-- Claim C9: the `Ord` implementation of `ObjectRef` agrees with the `i64`
transport integers (it is literally defined by comparing them), so `Invalid`
compares strictly less than every valid handle and valid handles compare by
their numeric value. -/
theorem object_ref_ord_transport :
    (∀ a b : ObjectRef, a.cmp b = compare a.toInt64 b.toInt64) ∧
    (∀ v : Nat, 0 < v → ObjectRef.cmp .invalid (.valid v) = .lt) ∧
    (∀ v w : Nat, ObjectRef.cmp (.valid v) (.valid w) = compare v w) := by
  refine ⟨fun a b => rfl, ?_, ?_⟩
  · intro v hv
    simp only [ObjectRef.cmp, ObjectRef.toInt64]
    exact compare_lt_iff_lt.mpr (by exact_mod_cast hv)
  · intro v w
    simp only [ObjectRef.cmp, ObjectRef.toInt64]
    rcases lt_trichotomy v w with h | h | h
    · rw [compare_lt_iff_lt.mpr (by exact_mod_cast h), compare_lt_iff_lt.mpr h]
    · subst h
      rw [compare_eq_iff_eq.mpr rfl, compare_eq_iff_eq.mpr rfl]
    · rw [compare_gt_iff_gt.mpr (by exact_mod_cast h), compare_gt_iff_gt.mpr h]

/-- Witness for `object_ref_ord_transport` at concrete handles. -/
theorem object_ref_ord_transport_witness :
    ObjectRef.cmp .invalid (.valid 3) = .lt ∧
    ObjectRef.cmp (.valid 2) (.valid 5) = compare 2 5 :=
  ⟨object_ref_ord_transport.2.1 3 (by decide),
   object_ref_ord_transport.2.2 2 5⟩

/-- Claim C3: a single call to `get_object_reference` never returns
`Invalid` (it returns a positive valid handle or panics), and for any `N`
sequential calls from the initial counter value `1` that all return, the `N`
returned handles are pairwise distinct positive valid handles. -/
theorem get_object_reference_unique :
    (∀ c r c', get_object_reference c = (some r, c') →
      ∃ k, 0 < k ∧ r = ObjectRef.valid k) ∧
    (∀ n l cf, allocN 1 n = some (l, cf) →
      l.Nodup ∧ ∀ r ∈ l, r ≠ ObjectRef.invalid ∧
        ∃ k, 0 < k ∧ r = ObjectRef.valid k) := by
  constructor
  · intro c r c' h
    by_cases hc : c = 0
    · simp [get_object_reference, hc] at h
    · simp [get_object_reference, hc] at h
      exact ⟨c, Nat.pos_of_ne_zero hc, h.1.symm⟩
  · intro n l cf h
    obtain ⟨hle, hshape⟩ :=
      allocN_success_shape n 1 l cf (by decide) (by norm_num) h
    subst hshape
    constructor
    · exact (List.nodup_range' ..).map (fun a b hab => by injection hab)
    · intro r hr
      simp only [List.mem_map] at hr
      obtain ⟨a, ha, hra⟩ := hr
      have ha1 : 1 ≤ a ∧ a < 1 + n := List.mem_range'_1.mp ha
      refine ⟨?_, a, by omega, hra.symm⟩
      rw [← hra]
      simp

/-- Witness for `get_object_reference_unique` at the concrete counter `1`
and a run of two allocations. -/
theorem get_object_reference_unique_witness :
    (∃ k, 0 < k ∧ ObjectRef.valid 1 = ObjectRef.valid k) ∧
    ([ObjectRef.valid 1, .valid 2].Nodup ∧
      ∀ r ∈ [ObjectRef.valid 1, .valid 2], r ≠ ObjectRef.invalid ∧
        ∃ k, 0 < k ∧ r = ObjectRef.valid k) := by
  constructor
  · exact get_object_reference_unique.1 1 (.valid 1) 2 (by decide)
  · exact get_object_reference_unique.2 2 [.valid 1, .valid 2] 3 (by decide)

/-- Claim C10: after `2 ^ 32 - 1` allocations from the initial counter `1`
(issuing all handles `1 .. 2 ^ 32 - 1` and wrapping the counter to `0`), the
next allocation fetches the key `0` and `NonZeroU32::new(0).unwrap()` panics
(the `none` outcome) — it neither returns `Invalid` nor reissues a
handle. -/
theorem get_object_reference_wraparound :
    allocN 1 (2 ^ 32 - 1) =
      some ((List.range' 1 (2 ^ 32 - 1)).map ObjectRef.valid, 0) ∧
    allocN 1 (2 ^ 32) = none := by
  have h1 := allocN_eq (2 ^ 32 - 1) 1 (by norm_num) (by norm_num) (by norm_num)
  have hmod : (1 + (2 ^ 32 - 1)) % 2 ^ 32 = 0 := by norm_num
  rw [hmod] at h1
  refine ⟨h1, ?_⟩
  have h2 := allocN_add 1 (2 ^ 32 - 1) 1
  have heq : (2 ^ 32 - 1) + 1 = 2 ^ 32 := by norm_num
  rw [heq] at h2
  rw [h2, h1]
  simp [allocN, get_object_reference]

/-- Claim C4: a memory request whose size is outside `{1, 2, 4}` never
produces a resumed value (no truncated or padded read); the evaluation loop
fails with the explicit `unimplemented!()` outcome instead. -/
theorem resume_memory_size_contract (size : Nat) (buff : List Nat)
    (h1 : size ≠ 1) (h2 : size ≠ 2) (h4 : size ≠ 4) :
    resume_with_memory_value size buff = none := by
  simp [resume_with_memory_value, h1, h2, h4]

/-- Witness for `resume_memory_size_contract` at the concrete size `3`. -/
theorem resume_memory_size_contract_witness :
    resume_with_memory_value 3 [10, 20, 30] = none :=
  resume_memory_size_contract 3 [10, 20, 30] (by decide) (by decide) (by decide)

/-- Claim C5 (code bug evaluation): the module declares a little-endian
reader (`EndianReader = gimli::EndianReader<gimli::LittleEndian, ..>`), yet
the memory-request arm assembles the bytes big-endian: for size 2 the bytes
`[0x01, 0x02]` produce `U16(0x0102)` (first byte most significant), which
differs from the little-endian assembly `0x0201` required by the claim, and
likewise for size 4. -/
theorem resume_memory_big_endian_eval :
    endianReaderEndian = Endian.little ∧
    resume_with_memory_value 2 [1, 2] = some (.u16 258) ∧
    resume_with_memory_value 4 [1, 2, 3, 4] = some (.u32 16909060) ∧
    GimliValue.u16 258 ≠ .u16 (specLittleEndianValue [1, 2]) ∧
    GimliValue.u32 16909060 ≠ .u32 (specLittleEndianValue [1, 2, 3, 4]) := by
  decide

/-- Claim C6: `combined_path` returns `Ok(path)` only when both `directory`
and `file` are present and the combined path exists on the host filesystem;
when either field is absent, or the combined path does not exist, it returns
the explicit `DebugError::Other` rather than a guessed path. -/
theorem combined_path_explicit (tryIntoNative : String → Option String)
    (pathExists : String → Bool) (loc : SourceLocation) :
    (∀ p, loc.combined_path tryIntoNative pathExists = .ok p →
      loc.directory.isSome ∧ loc.file.isSome ∧ pathExists p = true) ∧
    (loc.directory = none ∨ loc.file = none →
      loc.combined_path tryIntoNative pathExists =
        .error (.other (combinedPathErrMsg loc))) ∧
    (∀ np, loc.combined_typed_path.bind tryIntoNative = some np →
      pathExists np = false →
      loc.combined_path tryIntoNative pathExists =
        .error (.other (combinedPathErrMsg loc))) := by
  refine ⟨?_, ?_, ?_⟩
  · intro p h
    unfold SourceLocation.combined_path at h
    split at h
    · rename_i np heq
      split at h
      · rename_i hex
        injection h with h'
        subst h'
        obtain ⟨tp, htp, _⟩ := Option.bind_eq_some.mp heq
        obtain ⟨hdir, hfile⟩ := combined_typed_path_isSome loc tp htp
        exact ⟨hdir, hfile, hex⟩
      · cases h
    · cases h
  · intro h
    have hnone : loc.combined_typed_path.bind tryIntoNative = none := by
      rcases h with h | h <;>
        simp [SourceLocation.combined_typed_path, h]
    unfold SourceLocation.combined_path
    rw [hnone]
  · intro np hsome hfalse
    unfold SourceLocation.combined_path
    rw [hsome]
    simp [hfalse]

/-- Witness for `combined_path_explicit` on a location with both fields
present and an always-existing filesystem. -/
theorem combined_path_explicit_witness :
    sampleLoc.directory.isSome ∧ sampleLoc.file.isSome ∧
      (fun _ => true) "/src/main.rs" = true :=
  (combined_path_explicit some (fun _ => true) sampleLoc).1 "/src/main.rs" rfl

/-- Claim C7 (counterexample): given the non-UTF-8 name bytes `[0xFF]`,
`extract_name` silently returns the lossily converted string (the
replacement character U+FFFD) — it does not surface a `DebugError::NonUtf8`
or any other error (its return type is a plain `String`). -/
theorem extract_name_lossy_counterexample :
    extract_name (fun _ => .error .err) (.string [255]) =
      String.mk [replacementChar] := by decide

/-- Claim C7 (amended): `extract_name` never surfaces an encoding error:
name bytes are converted with `String::from_utf8_lossy` (so valid ASCII
decodes exactly and ill-formed sequences become U+FFFD), and a failing
`.debug_str` lookup yields the placeholder string
`"Invalid DW_AT_name value"`; the `DebugError::NonUtf8` variant exists but
is not produced by `extract_name`. -/
theorem extract_name_total_lossy (dwarfString : Nat → Except GimliError (List Nat))
    (bytes : List Nat) (nameRef : Nat) (e : GimliError) :
    (extract_name dwarfString (.string bytes) = String.mk (utf8Lossy bytes)) ∧
    ((∀ b ∈ bytes, b < 0x80) →
      extract_name dwarfString (.string bytes) =
        String.mk (bytes.map Char.ofNat)) ∧
    (dwarfString nameRef = .error e →
      extract_name dwarfString (.debugStrRef nameRef) =
        "Invalid DW_AT_name value") ∧
    (∀ raw, dwarfString nameRef = .ok raw →
      extract_name dwarfString (.debugStrRef nameRef) =
        String.mk (utf8Lossy raw)) := by
  refine ⟨rfl, ?_, ?_, ?_⟩
  · intro h
    simp only [extract_name, utf8Lossy_ascii bytes h]
  · intro h
    simp only [extract_name, h]
  · intro raw h
    simp only [extract_name, h]

/-- Witness for `extract_name_total_lossy` on the ASCII bytes `"hi"` and a
failing string lookup. -/
theorem extract_name_total_lossy_witness :
    extract_name (fun _ => .error .err) (.string [104, 105]) =
      String.mk ([104, 105].map Char.ofNat) ∧
    extract_name (fun _ => .error .err) (.debugStrRef 0) =
      "Invalid DW_AT_name value" :=
  ⟨(extract_name_total_lossy (fun _ => .error .err) [104, 105] 0 .err).2.1
      (by decide),
   (extract_name_total_lossy (fun _ => .error .err) [104, 105] 0 .err).2.2.1 rfl⟩

/-- Claim C8: the attribute-extraction helpers are total (`Option`-valued,
no panic and no propagated error): `extract_file` yields `None` on every
attribute that is not a `FileIndex`, `extract_byte_size` yields `None` on
every input that is not `Ok(Some(Udata(..)))` — in particular on an `Err`
from the attribute accessor — and `extract_line` yields `None` on every
non-`Udata` attribute and `Some(line)` on `Udata(line)`. -/
theorem extract_helpers_nonfatal :
    (∀ (ffd : Nat → Option (Option String × Option String))
      (lp : Option LineProgram) (av : AttributeValue),
      (∀ i, av ≠ .fileIndex i) → extract_file ffd lp av = none) ∧
    (∀ r : Except GimliError (Option AttributeValue),
      (∀ n, r ≠ .ok (some (.udata n))) → extract_byte_size r = none) ∧
    (∀ e : GimliError, extract_byte_size (.error e) = none) ∧
    (∀ av : AttributeValue, (∀ n, av ≠ .udata n) → extract_line av = none) ∧
    (∀ n : Nat, extract_line (.udata n) = some n) := by
  refine ⟨?_, ?_, fun e => rfl, ?_, fun n => rfl⟩
  · intro ffd lp av h
    cases av with
    | fileIndex i => exact absurd rfl (h i)
    | udata n => rfl
    | debugStrRef r => rfl
    | string bs => rfl
    | other => rfl
  · intro r h
    match r with
    | .error e => rfl
    | .ok none => rfl
    | .ok (some av) =>
      cases av with
      | udata n => exact absurd rfl (h n)
      | fileIndex i => rfl
      | debugStrRef nr => rfl
      | string bs => rfl
      | other => rfl
  · intro av h
    cases av with
    | udata n => exact absurd rfl (h n)
    | fileIndex i => rfl
    | debugStrRef nr => rfl
    | string bs => rfl
    | other => rfl

/-- Witness for `extract_helpers_nonfatal` at concrete malformed inputs. -/
theorem extract_helpers_nonfatal_witness :
    extract_file (fun _ => none) none .other = none ∧
    extract_byte_size (.ok (some .other)) = none ∧
    extract_line .other = none :=
  ⟨extract_helpers_nonfatal.1 (fun _ => none) none .other
      (fun i h => by simp at h),
   extract_helpers_nonfatal.2.1 (.ok (some .other)) (fun n h => by simp at h),
   extract_helpers_nonfatal.2.2.2.1 .other (fun n h => by simp at h)⟩

end ProbeRs
